import Mathlib

/-!
Shallow embedding of `release.js`, the release orchestrator script of this
repository.  Pure computations (version-increment choice list, manifest
propagation, release-tag inference) are translated as Lean functions; the
effectful pipeline (`main`) is translated as a function producing the ordered
trace of observable events (executed commands, dry-run logs, console output,
manifest file reads/writes) together with an optional thrown error, with the
results of external commands (git diff output, build/publish/tag/push exit
status) supplied as an explicit environment.
-/

set_option maxRecDepth 4000

namespace Release

/-- JavaScript value fragment used by the `preId` computation: `args.preid` is
a string, `semver.prerelease(currentVersion)` yields components that are
strings or numbers, and `null`/`undefined` is modelled as `nullv`. -/
inductive JsVal where
  | str (s : String)
  | num (n : Nat)
  | nullv
  deriving DecidableEq

/-- JavaScript truthiness for the values above: empty string, zero and
null/undefined are falsy. -/
def jsTruthy : JsVal → Bool
  | .str s => !(s == "")
  | .num n => !(n == 0)
  | .nullv => false

/-- Embedding of
`const preId = args.preid || (semver.prerelease(currentVersion) && semver.prerelease(currentVersion)[0])`.
`argsPreid` is `args.preid` (absent or a string); `pre` is the result of
`semver.prerelease(currentVersion)` (`none` for a release version, otherwise
the list of prerelease components). -/
def preId (argsPreid : Option String) (pre : Option (List JsVal)) : JsVal :=
  let fromVersion : JsVal :=
    match pre with
    | none => .nullv
    | some [] => .nullv
    | some (c :: _) => c
  match argsPreid with
  | some s => if s == "" then fromVersion else .str s
  | none => fromVersion

/-- Embedding of the `versionIncrements` array:
`['patch','minor','major', ...(preId ? ['prepatch','preminor','premajor','prerelease'] : [])]`. -/
def versionIncrements (p : JsVal) : List String :=
  ["patch", "minor", "major"] ++
    (if jsTruthy p then ["prepatch", "preminor", "premajor", "prerelease"] else [])

/-- A `package.json` manifest as the script manipulates it: name, version,
optional dependency and peer-dependency maps (association lists, preserving
key order as JavaScript objects do), the `private` flag, and the remaining
fields, which the script reads and writes back unchanged. -/
structure Manifest where
  name : String
  version : String
  dependencies : Option (List (String × String))
  peerDependencies : Option (List (String × String))
  privateFlag : Bool
  extraFields : List (String × String)
  deriving DecidableEq

/-- Embedding of `dep.replace(/^@vue\//, '')`: strip a leading `@vue/`. -/
def stripVueScope (dep : String) : String :=
  if dep.startsWith "@vue/" then dep.drop 5 else dep

/-- The condition under which `updateDeps` rewrites an entry:
`dep === 'vue' || (dep.startsWith('@vue') && packages.includes(dep.replace(/^@vue\//, '')))`. -/
def isCoreDep (packages : List String) (dep : String) : Bool :=
  dep == "vue" || (dep.startsWith "@vue" && packages.contains (stripVueScope dep))

/-- Embedding of `updateDeps` (release.js lines 196-210): rewrite every entry
whose key satisfies `isCoreDep` to the new version, leaving the rest alone.
The in-place mutation over `Object.keys(deps)` preserves key order, hence the
`map`. -/
def updateDeps (packages : List String) (version : String)
    (deps : List (String × String)) : List (String × String) :=
  deps.map (fun e => if isCoreDep packages e.1 then (e.1, version) else e)

/-- Embedding of `updatePackage` (release.js lines 187-194), restricted to the
in-memory transformation: set `pkg.version`, then run `updateDeps` on
`dependencies` and `peerDependencies` when present (`if (!deps) return`). -/
def updatePackage (packages : List String) (version : String) (pkg : Manifest) :
    Manifest :=
  { pkg with
      version := version
      dependencies := pkg.dependencies.map (updateDeps packages version)
      peerDependencies := pkg.peerDependencies.map (updateDeps packages version) }

/-- Embedding of `updateVersions` (release.js lines 180-185): update the root
manifest, then every package manifest, with the same target version. -/
def updateVersions (packages : List String) (version : String)
    (rootPkg : Manifest) (pkgManifests : List (String × Manifest)) :
    Manifest × List (String × Manifest) :=
  (updatePackage packages version rootPkg,
   pkgManifests.map (fun e => (e.1, updatePackage packages version e.2)))

/-- Path of a manifest file touched by the script: the root `package.json` or
`packages/<name>/package.json`. -/
inductive PkgPath where
  | root
  | pkg (name : String)
  deriving DecidableEq

/-- External commands the script can issue. `yarnTest` corresponds to the test
command of the test gate (present in the source only in commented-out form). -/
inductive Cmd where
  | yarnTest
  | yarnBuild
  | gitDiff
  | gitAdd
  | gitCommit (msg : String)
  | yarnPublish (pkg : String) (version : String) (releaseTag : Option String)
  | gitTag (tag : String)
  | gitPushTag (tag : String)
  | gitPush
  deriving DecidableEq

/-- Errors `main` can throw. -/
inductive RunError where
  | invalidVersion (v : String)
  | buildFailed (stderr : String)
  | publishFailed (pkg : String) (stderr : String)
  | tagFailed (stderr : String)
  | pushTagFailed (stderr : String)
  | pushFailed (stderr : String)
  deriving DecidableEq

/-- Observable events of one run: a live command execution, a dry-run record
of a command, `step`/`log` console output, manifest file reads and writes, the
skipped-packages summary, and the top-level error print. -/
inductive Event where
  | exec (c : Cmd)
  | dryLog (c : Cmd)
  | step (msg : String)
  | log (msg : String)
  | fileRead (p : PkgPath)
  | fileWrite (p : PkgPath)
  | skippedSummary (pkgs : List String)
  | errorPrint (e : RunError)
  deriving DecidableEq

/-- The command (if any) an event hands to an executor: a live execution or a
dry-run record. -/
def Event.issued : Event → Option Cmd
  | .exec c => some c
  | .dryLog c => some c
  | _ => none

/-- Run configuration: the flags parsed from the command line. -/
structure Config where
  isDryRun : Bool
  skipTests : Bool
  skipBuild : Bool
  argsTag : Option String

/-- Results of the external world: git diff output and the outcome of each
live command that can fail (`Except.error` carries the captured stderr). -/
structure Env where
  diffOutput : String
  buildResult : Except String Unit
  publishResult : String → Except String Unit
  tagResult : Except String Unit
  pushTagResult : Except String Unit
  pushResult : Except String Unit

/-- Embedding of `const skippedPackages = []` (release.js line 34); the script
never adds to it. -/
def skippedPackages : List String := []

/-- Embedding of `runIfNotDry`: a live execution normally, a printed record
under `--dry`. -/
def runIfNotDryEv (cfg : Config) (c : Cmd) : Event :=
  if cfg.isDryRun then .dryLog c else .exec c

/-- Character-list prefix test (auxiliary for the substring tests below). -/
def charsHavePre : List Char → List Char → Bool
  | [], _ => true
  | _ :: _, [] => false
  | a :: as, b :: bs => a == b && charsHavePre as bs

/-- Character-list substring test (auxiliary). -/
def charsHaveSub (needle : List Char) : List Char → Bool
  | [] => charsHavePre needle []
  | b :: t => charsHavePre needle (b :: t) || charsHaveSub needle t

/-- `hay.includes(needle)` / an unanchored regex match on `hay`. -/
def strContains (hay needle : String) : Bool :=
  charsHaveSub needle.toList hay.toList

/-- Release-tag selection of `publishPackage` (release.js lines 225-237):
`args.tag` when truthy, else `alpha`/`beta`/`rc` by substring of the version,
else `next` for the package named `vue`, else none. -/
def releaseTagFor (argsTag : Option String) (version : String)
    (pkgName : String) : Option String :=
  let inferred : Option String :=
    if strContains version "alpha" then some "alpha"
    else if strContains version "beta" then some "beta"
    else if strContains version "rc" then some "rc"
    else if pkgName == "vue" then some "next"
    else none
  match argsTag with
  | some t => if t == "" then inferred else some t
  | none => inferred

/-- The test gate (release.js lines 115-122): a step header, then — whether or
not tests are skipped — only a console message; the actual test commands are
commented out in the source. -/
def testStage (cfg : Config) : List Event :=
  [.step "Running tests...",
   .log (if !cfg.skipTests && !cfg.isDryRun then "(没有单元测试)" else "(skipped)")]

/-- The propagation stage (release.js lines 124-126 with `updateVersions`):
reads and rewrites the root manifest and each package manifest, and returns
the updated in-memory manifests. -/
def propagationStage (version : String) (rootPkg : Manifest)
    (pkgManifests : List (String × Manifest)) :
    List Event × Manifest × List (String × Manifest) :=
  let packages := pkgManifests.map Prod.fst
  ([Event.step "Updating cross dependencies...",
    Event.fileRead .root, Event.fileWrite .root] ++
     (pkgManifests.map
       (fun e => [Event.fileRead (.pkg e.1), Event.fileWrite (.pkg e.1)])).flatten,
   updateVersions packages version rootPkg pkgManifests)

/-- The build gate (release.js lines 128-138): `yarn build --release` runs live
unless `skipBuild` or dry-run; a non-zero exit is thrown. -/
def buildStage (cfg : Config) (env : Env) : List Event × Option RunError :=
  if !cfg.skipBuild && !cfg.isDryRun then
    match env.buildResult with
    | .ok _ =>
      ([.step "Building all packages...", .exec .yarnBuild,
        .step "Verifying type declarations...", .log "不执行单元测试"], none)
    | .error e =>
      ([.step "Building all packages...", .exec .yarnBuild], some (.buildFailed e))
  else
    ([.step "Building all packages...", .log "(skipped)"], none)

/-- The commit stage (release.js lines 143-150): `git diff` always runs live;
on non-empty output, `git add -A` and `git commit` go through `runIfNotDry`,
otherwise only a notice is printed. -/
def commitStage (cfg : Config) (env : Env) (version : String) : List Event :=
  Event.exec .gitDiff ::
    (if env.diffOutput == "" then
      [.log "No changes to commit."]
    else
      [.step "Committing changes...",
       runIfNotDryEv cfg .gitAdd,
       runIfNotDryEv cfg (.gitCommit ("release: v" ++ version))])

/-- Embedding of `publishPackage` (release.js lines 212-267): skip-set check,
manifest re-read, private check, release-tag selection, then the publish
command through `runIfNotDry`; a live failure whose stderr matches
`/previously published/` is logged and swallowed, any other failure is
rethrown. -/
def publishPackage (cfg : Config) (env : Env) (version : String)
    (pkgName : String) (pkg : Manifest) : List Event × Option RunError :=
  if skippedPackages.contains pkgName then ([], none)
  else
    let readEv := [Event.fileRead (.pkg pkgName)]
    if pkg.privateFlag then (readEv, none)
    else
      let tag := releaseTagFor cfg.argsTag version pkgName
      let cmd := Cmd.yarnPublish pkgName version tag
      let stepEv := Event.step ("Publishing " ++ pkgName ++ "...")
      if cfg.isDryRun then
        (readEv ++ [stepEv, .dryLog cmd,
          .log ("Successfully published " ++ pkgName ++ "@" ++ version)], none)
      else
        match env.publishResult pkgName with
        | .ok _ =>
          (readEv ++ [stepEv, .exec cmd,
            .log ("Successfully published " ++ pkgName ++ "@" ++ version)], none)
        | .error stderr =>
          if strContains stderr "previously published" then
            (readEv ++ [stepEv, .exec cmd,
              .log ("Skipping already published: " ++ pkgName)], none)
          else
            (readEv ++ [stepEv, .exec cmd], some (.publishFailed pkgName stderr))

/-- The publish loop (release.js lines 154-156): publish each package in
order, stopping at the first thrown error. -/
def publishStage (cfg : Config) (env : Env) (version : String) :
    List (String × Manifest) → List Event × Option RunError
  | [] => ([], none)
  | e :: rest =>
    let r := publishPackage cfg env version e.1 e.2
    match r.2 with
    | some err => (r.1, some err)
    | none =>
      let r2 := publishStage cfg env version rest
      (r.1 ++ r2.1, r2.2)

/-- The tag-and-push stage (release.js lines 158-162): `git tag`, push the tag
ref, push the branch, each through `runIfNotDry`; a live failure stops the
remaining ones. -/
def tagPushStage (cfg : Config) (env : Env) (version : String) :
    List Event × Option RunError :=
  let stepEv := Event.step "Pushing to GitHub..."
  let tagCmd := Cmd.gitTag ("v" ++ version)
  let pushTagCmd := Cmd.gitPushTag ("v" ++ version)
  if cfg.isDryRun then
    ([stepEv, .dryLog tagCmd, .dryLog pushTagCmd, .dryLog .gitPush], none)
  else
    match env.tagResult with
    | .error e => ([stepEv, .exec tagCmd], some (.tagFailed e))
    | .ok _ =>
      match env.pushTagResult with
      | .error e =>
        ([stepEv, .exec tagCmd, .exec pushTagCmd], some (.pushTagFailed e))
      | .ok _ =>
        match env.pushResult with
        | .error e =>
          ([stepEv, .exec tagCmd, .exec pushTagCmd, .exec .gitPush],
           some (.pushFailed e))
        | .ok _ =>
          ([stepEv, .exec tagCmd, .exec pushTagCmd, .exec .gitPush], none)

/-- The end-of-run summary (release.js lines 164-177): dry-run notice, then
the skipped-packages listing when `skippedPackages` is non-empty. -/
def summaryStage (cfg : Config) : List Event :=
  (if cfg.isDryRun then
    [Event.log "Dry run finished - run git diff to see package changes."]
   else []) ++
    (if skippedPackages.length != 0 then [Event.skippedSummary skippedPackages]
     else []) ++
    [Event.log ""]

/-- The pipeline from the test gate onward (release.js lines 114-177), with
the version already resolved, validated and confirmed: test gate, propagation,
build gate, commit, publish loop, tag-and-push, summary, stopping at the first
thrown error. -/
def mainRun (cfg : Config) (env : Env) (version : String) (rootPkg : Manifest)
    (pkgManifests : List (String × Manifest)) : List Event × Option RunError :=
  let t := testStage cfg
  let p := propagationStage version rootPkg pkgManifests
  let pre := t ++ p.1
  let b := buildStage cfg env
  match b.2 with
  | some e => (pre ++ b.1, some e)
  | none =>
    let c := commitStage cfg env version
    let pub := publishStage cfg env version p.2.2
    let pubHdr := [Event.step "Publishing packages..."]
    match pub.2 with
    | some e => (pre ++ b.1 ++ c ++ pubHdr ++ pub.1, some e)
    | none =>
      let tp := tagPushStage cfg env version
      match tp.2 with
      | some e => (pre ++ b.1 ++ c ++ pubHdr ++ pub.1 ++ tp.1, some e)
      | none =>
        (pre ++ b.1 ++ c ++ pubHdr ++ pub.1 ++ tp.1 ++ summaryStage cfg, none)

/-- `main` with its up-front checks (release.js lines 96-110): an invalid
target version throws before any stage, a declined confirmation returns
cleanly with nothing done; otherwise the pipeline runs.  `versionValid` is the
verdict of the external `semver.valid` on the target version. -/
def fullMain (cfg : Config) (env : Env) (versionValid : Bool)
    (confirmYes : Bool) (version : String) (rootPkg : Manifest)
    (pkgManifests : List (String × Manifest)) : List Event × Option RunError :=
  if !versionValid then ([], some (.invalidVersion version))
  else if !confirmYes then ([], none)
  else mainRun cfg env version rootPkg pkgManifests

/-- Observable outcome of the whole process: the event trace and the process
exit code. -/
structure ProcessOutcome where
  trace : List Event
  exitCode : Nat
  deriving DecidableEq

/-- Embedding of the entry point `main().catch(err => console.error(err))`
(release.js lines 269-271): any error from `main` is printed and the process
still terminates normally (exit code 0). -/
def topLevel (cfg : Config) (env : Env) (versionValid : Bool)
    (confirmYes : Bool) (version : String) (rootPkg : Manifest)
    (pkgManifests : List (String × Manifest)) : ProcessOutcome :=
  let r := fullMain cfg env versionValid confirmYes version rootPkg pkgManifests
  match r.2 with
  | some e => { trace := r.1 ++ [Event.errorPrint e], exitCode := 0 }
  | none => { trace := r.1, exitCode := 0 }

/-- Sample live configuration (no flags set). -/
def cfgLive : Config :=
  { isDryRun := false, skipTests := false, skipBuild := false, argsTag := none }

/-- Sample dry-run configuration (`--dry`). -/
def cfgDry : Config :=
  { isDryRun := true, skipTests := false, skipBuild := false, argsTag := none }

/-- Sample environment in which every external command succeeds and the diff
is non-empty. -/
def envOk : Env :=
  { diffOutput := "diff"
    buildResult := .ok ()
    publishResult := fun _ => .ok ()
    tagResult := .ok ()
    pushTagResult := .ok ()
    pushResult := .ok () }

/-- Sample root manifest. -/
def mRoot : Manifest :=
  { name := "root", version := "1.0.0", dependencies := none,
    peerDependencies := none, privateFlag := false, extraFields := [] }

/-- Sample package manifest depending on a sibling release-set package by its
exact name. -/
def mFoo : Manifest :=
  { name := "foo", version := "1.0.0",
    dependencies := some [("foo", "1.0.0")],
    peerDependencies := none, privateFlag := false, extraFields := [] }

/-- Specification-side predicate for one dependency entry after propagation:
same key; set to the new version when the key satisfies the rewrite condition,
byte-identical otherwise. -/
def DepEntryUpdated (packages : List String) (version : String)
    (old new : String × String) : Prop :=
  new.1 = old.1 ∧
    (isCoreDep packages old.1 = true → new.2 = version) ∧
    (isCoreDep packages old.1 = false → new.2 = old.2)

/-- Specification-side predicate relating a dependency map before and after
propagation: absent stays absent, present is rewritten entrywise in order. -/
def DepMapUpdated (packages : List String) (version : String) :
    Option (List (String × String)) → Option (List (String × String)) → Prop
  | none, none => True
  | some o, some n => List.Forall₂ (DepEntryUpdated packages version) o n
  | _, _ => False

/-- Specification-side predicate relating a manifest before and after
propagation: version set to the target, all other scalar fields preserved,
both dependency maps rewritten per `DepMapUpdated`. -/
def ManifestUpdated (packages : List String) (version : String)
    (old new : Manifest) : Prop :=
  new.version = version ∧ new.name = old.name ∧
    new.privateFlag = old.privateFlag ∧ new.extraFields = old.extraFields ∧
    DepMapUpdated packages version old.dependencies new.dependencies ∧
    DepMapUpdated packages version old.peerDependencies new.peerDependencies

lemma updateDeps_forall₂ (packages : List String) (version : String)
    (deps : List (String × String)) :
    List.Forall₂ (DepEntryUpdated packages version) deps
      (updateDeps packages version deps) := by
  induction deps with
  | nil => simp [updateDeps]
  | cons d rest ih =>
    rw [updateDeps, List.map_cons]
    refine List.Forall₂.cons ?_ ih
    by_cases h : isCoreDep packages d.1 = true
    · simp [DepEntryUpdated, h]
    · simp only [Bool.not_eq_true] at h
      simp [DepEntryUpdated, h]

lemma depMapUpdated_map (packages : List String) (version : String)
    (o : Option (List (String × String))) :
    DepMapUpdated packages version o (o.map (updateDeps packages version)) := by
  cases o with
  | none => simp [DepMapUpdated]
  | some l => exact updateDeps_forall₂ packages version l

lemma updatePackage_updated (packages : List String) (version : String)
    (pkg : Manifest) :
    ManifestUpdated packages version pkg (updatePackage packages version pkg) := by
  refine ⟨rfl, rfl, rfl, rfl, ?_, ?_⟩
  · exact depMapUpdated_map packages version pkg.dependencies
  · exact depMapUpdated_map packages version pkg.peerDependencies

/-- Claim C1 (counterexample): with release set `["foo"]` and a package whose
dependency map has an entry for the in-set package `foo` at version `1.0.0`,
propagation to `2.0.0` leaves the entry at `1.0.0`: an entry whose key names an
in-release-set package by exact name is not rewritten to the new version. -/
theorem c1_counterexample :
    "foo" ∈ ["foo"] ∧
      ((updateVersions ["foo"] "2.0.0" mRoot [("foo", mFoo)]).2.map
          (fun e => e.2.dependencies)) = [some [("foo", "1.0.0")]] ∧
      ("1.0.0" : String) ≠ "2.0.0" := by
  refine ⟨by decide, ?_, by decide⟩
  decide

/-- Claim C1 (amended): after `updateVersions(newVersion)`, every manifest in
the release set (the root and each package) has its version field set to
`newVersion`, and each dependency / peer-dependency entry is rewritten to
exactly `newVersion` when its key is the literal `vue` or starts with `@vue`
and resolves (after stripping a leading `@vue/`) to an in-release-set package
name, and is byte-identical to its previous value otherwise; all other
manifest fields are preserved. -/
theorem c1_updateVersions_characterization (packages : List String)
    (version : String) (rootPkg : Manifest)
    (pkgManifests : List (String × Manifest)) :
    ManifestUpdated packages version rootPkg
        (updateVersions packages version rootPkg pkgManifests).1 ∧
      List.Forall₂
        (fun old new => new.1 = old.1 ∧
          ManifestUpdated packages version old.2 new.2)
        pkgManifests (updateVersions packages version rootPkg pkgManifests).2 := by
  constructor
  · exact updatePackage_updated packages version rootPkg
  · rw [updateVersions]
    rw [List.forall₂_map_right_iff]
    rw [List.forall₂_same]
    intro e _
    exact ⟨rfl, updatePackage_updated packages version e.2⟩

lemma updateDeps_idem (packages : List String) (version : String)
    (deps : List (String × String)) :
    updateDeps packages version (updateDeps packages version deps) =
      updateDeps packages version deps := by
  simp only [updateDeps, List.map_map]
  refine List.map_congr_left ?_
  intro e _
  by_cases h : isCoreDep packages e.1 = true
  · simp [Function.comp, h]
  · simp only [Bool.not_eq_true] at h
    simp [Function.comp, h]

lemma updatePackage_idem (packages : List String) (version : String)
    (pkg : Manifest) :
    updatePackage packages version (updatePackage packages version pkg) =
      updatePackage packages version pkg := by
  cases pkg with
  | mk nm v dep peer priv extra =>
    cases dep <;> cases peer <;>
      simp [updatePackage, updateDeps_idem]

/-- Claim C4: propagation is idempotent — running `updateVersions` a second
time with the same target version on the manifests produced by the first run
leaves every manifest (root and packages) exactly as the first run left it. -/
theorem c4_propagation_idempotent (packages : List String) (version : String)
    (rootPkg : Manifest) (pkgManifests : List (String × Manifest)) :
    updateVersions packages version
        (updateVersions packages version rootPkg pkgManifests).1
        (updateVersions packages version rootPkg pkgManifests).2 =
      updateVersions packages version rootPkg pkgManifests := by
  simp only [updateVersions]
  refine Prod.ext ?_ ?_
  · simpa using updatePackage_idem packages version rootPkg
  · simp only [List.map_map]
    refine List.map_congr_left ?_
    intro e _
    simp [Function.comp, updatePackage_idem]

/-- Specification-side predicate for when the extra pre-release increment
choices appear: `preId` is truthy, i.e. `--preid` was given as a non-empty
string, or (when it was absent or empty) the current version has a first
prerelease component that is JavaScript-truthy (a non-empty string or a
non-zero number). -/
def PreKindsOffered (argsPreid : Option String) (pre : Option (List JsVal)) :
    Prop :=
  (∃ s, argsPreid = some s ∧ s ≠ "") ∨
    ((argsPreid = none ∨ argsPreid = some "") ∧
      ∃ c cs, pre = some (c :: cs) ∧ jsTruthy c = true)

lemma jsTruthy_preId_iff (argsPreid : Option String) (pre : Option (List JsVal)) :
    jsTruthy (preId argsPreid pre) = true ↔ PreKindsOffered argsPreid pre := by
  cases argsPreid with
  | none =>
    cases pre with
    | none => simp [preId, jsTruthy, PreKindsOffered]
    | some l =>
      cases l with
      | nil => simp [preId, jsTruthy, PreKindsOffered]
      | cons c cs => simp [preId, PreKindsOffered]
  | some s =>
    by_cases hs : s = ""
    · subst hs
      cases pre with
      | none => simp [preId, jsTruthy, PreKindsOffered]
      | some l =>
        cases l with
        | nil => simp [preId, jsTruthy, PreKindsOffered]
        | cons c cs => simp [preId, PreKindsOffered]
    · simp [preId, hs, jsTruthy, PreKindsOffered]

/-- Claim C6 (counterexample): with `--preid=beta` and a current version that
carries no prerelease identifier (`semver.prerelease` is null), the choice
list still contains the pre-release increments, so the extra kinds are not
offered "if and only if the current version carries a prerelease
identifier". -/
theorem c6_counterexample :
    "prerelease" ∈ versionIncrements (preId (some "beta") none) ∧
      versionIncrements (preId (some "beta") none) ≠
        ["patch", "minor", "major"] := by
  decide

/-- Claim C6 (amended): the choices always include patch, minor, major, and
additionally include prepatch, preminor, premajor, prerelease if and only if
`preId` is truthy: `--preid` was supplied non-empty, or — it being absent or
empty — the current version's first prerelease component is a non-empty
string or non-zero number. -/
theorem c6_increment_choices_characterization (argsPreid : Option String)
    (pre : Option (List JsVal)) :
    ("patch" ∈ versionIncrements (preId argsPreid pre) ∧
        "minor" ∈ versionIncrements (preId argsPreid pre) ∧
        "major" ∈ versionIncrements (preId argsPreid pre)) ∧
      ∀ k, k ∈ (["prepatch", "preminor", "premajor", "prerelease"] : List String) →
        (k ∈ versionIncrements (preId argsPreid pre) ↔
          PreKindsOffered argsPreid pre) := by
  constructor
  · cases h : jsTruthy (preId argsPreid pre) <;> simp [versionIncrements, h]
  · intro k hk
    have hiff := jsTruthy_preId_iff argsPreid pre
    cases h : jsTruthy (preId argsPreid pre) with
    | false =>
      rw [h] at hiff
      simp at hiff
      refine iff_of_false ?_ hiff
      have hk' : k = "prepatch" ∨ k = "preminor" ∨ k = "premajor" ∨
          k = "prerelease" := by simpa using hk
      rcases hk' with hk' | hk' | hk' | hk' <;> subst hk' <;>
        simp [versionIncrements, h]
    | true =>
      rw [h] at hiff
      simp at hiff
      refine iff_of_true ?_ hiff
      have hk' : k = "prepatch" ∨ k = "preminor" ∨ k = "premajor" ∨
          k = "prerelease" := by simpa using hk
      rcases hk' with hk' | hk' | hk' | hk' <;> subst hk' <;>
        simp [versionIncrements, h]

/-- Witness for C6: with no `--preid` and current version prerelease
components `["beta", 0]`, the prerelease choice is offered and the amended
condition holds. -/
theorem c6_witness :
    "prerelease" ∈
        versionIncrements (preId none (some [JsVal.str "beta", JsVal.num 0])) ↔
      PreKindsOffered none (some [JsVal.str "beta", JsVal.num 0]) :=
  (c6_increment_choices_characterization none
      (some [JsVal.str "beta", JsVal.num 0])).2 "prerelease" (by decide)

/-- Claim C7: the commands handed to an executor by the commit stage are
exactly the live `git diff`, followed — precisely when the diff output is
non-empty — by `git add -A` and `git commit -m "release: v<version>"` through
the mode-selected executor; on an empty diff no staging or commit command is
issued in any execution mode, and `git diff` itself is executed live even
under dry-run. -/
theorem c7_commit_iff_diff_nonempty (cfg : Config) (env : Env)
    (version : String) :
    (commitStage cfg env version).filterMap Event.issued =
        Cmd.gitDiff ::
          (if env.diffOutput = "" then []
           else [Cmd.gitAdd, Cmd.gitCommit ("release: v" ++ version)]) ∧
      Event.exec Cmd.gitDiff ∈ commitStage cfg env version := by
  constructor
  · by_cases h : env.diffOutput = ""
    · simp [commitStage, h, Event.issued]
    · cases hd : cfg.isDryRun <;>
        simp [commitStage, h, runIfNotDryEv, hd, Event.issued]
  · simp [commitStage]

/-- Claim C9: the entry point wraps `main()` in a `catch` that prints the
error, so for every input the process completes with exit code 0, and
whenever the pipeline raised an error that error appears printed in the
output. -/
theorem c9_top_level_catches_all (cfg : Config) (env : Env)
    (versionValid confirmYes : Bool) (version : String) (rootPkg : Manifest)
    (pkgManifests : List (String × Manifest)) :
    (topLevel cfg env versionValid confirmYes version rootPkg
          pkgManifests).exitCode = 0 ∧
      ∀ e,
        (fullMain cfg env versionValid confirmYes version rootPkg
              pkgManifests).2 = some e →
          Event.errorPrint e ∈
            (topLevel cfg env versionValid confirmYes version rootPkg
                pkgManifests).trace := by
  rcases h2 : (fullMain cfg env versionValid confirmYes version rootPkg
      pkgManifests).2 with _ | e
  · refine ⟨?_, ?_⟩
    · simp [topLevel, h2]
    · intro e' he'
      exact absurd he' (by simp)
  · refine ⟨?_, ?_⟩
    · simp [topLevel, h2]
    · intro e' he'
      simp only [Option.some.injEq] at he'
      subst he'
      simp [topLevel, h2]

/-- Witness for C9: an invalid target version is caught, printed, and the
process exits with code 0. -/
theorem c9_witness :
    (topLevel cfgLive envOk false true "abc" mRoot []).exitCode = 0 ∧
      Event.errorPrint (RunError.invalidVersion "abc") ∈
        (topLevel cfgLive envOk false true "abc" mRoot []).trace :=
  ⟨(c9_top_level_catches_all cfgLive envOk false true "abc" mRoot []).1,
   (c9_top_level_catches_all cfgLive envOk false true "abc" mRoot []).2
     (RunError.invalidVersion "abc") (by decide)⟩

lemma shape_testStage {cfg : Config} {ev : Event} (h : ev ∈ testStage cfg) :
    (∃ s, ev = Event.step s) ∨ ∃ s, ev = Event.log s := by
  simp [testStage] at h
  rcases h with h | h
  · exact Or.inl ⟨_, h⟩
  · exact Or.inr ⟨_, h⟩

lemma shape_propagationStage {version : String} {rootPkg : Manifest}
    {pkgManifests : List (String × Manifest)} {ev : Event}
    (h : ev ∈ (propagationStage version rootPkg pkgManifests).1) :
    (∃ s, ev = Event.step s) ∨ ev = Event.fileRead PkgPath.root ∨
      ev = Event.fileWrite PkgPath.root ∨
      ∃ nm, nm ∈ pkgManifests.map Prod.fst ∧
        (ev = Event.fileRead (PkgPath.pkg nm) ∨
          ev = Event.fileWrite (PkgPath.pkg nm)) := by
  simp only [propagationStage, List.mem_append, List.mem_cons,
    List.not_mem_nil, or_false] at h
  rcases h with (h | h | h) | h
  · exact Or.inl ⟨_, h⟩
  · exact Or.inr (Or.inl h)
  · exact Or.inr (Or.inr (Or.inl h))
  · rw [List.mem_flatten] at h
    rcases h with ⟨l, hl, hev⟩
    rw [List.mem_map] at hl
    rcases hl with ⟨e, he, rfl⟩
    simp only [List.mem_cons, List.not_mem_nil, or_false] at hev
    rcases hev with hev | hev
    · exact Or.inr (Or.inr (Or.inr
        ⟨e.1, List.mem_map_of_mem Prod.fst he, Or.inl hev⟩))
    · exact Or.inr (Or.inr (Or.inr
        ⟨e.1, List.mem_map_of_mem Prod.fst he, Or.inr hev⟩))

lemma shape_buildStage {cfg : Config} {env : Env} {ev : Event}
    (h : ev ∈ (buildStage cfg env).1) :
    (ev = Event.exec Cmd.yarnBuild ∧ cfg.isDryRun = false) ∨
      (∃ s, ev = Event.step s) ∨ ∃ s, ev = Event.log s := by
  by_cases hB : (!cfg.skipBuild && !cfg.isDryRun) = true
  · have hdry : cfg.isDryRun = false := by
      simp only [Bool.and_eq_true, Bool.not_eq_true'] at hB
      exact hB.2
    rcases hr : env.buildResult with e' | u
    · simp [buildStage, hB, hr] at h
      rcases h with h | h
      · exact Or.inr (Or.inl ⟨_, h⟩)
      · exact Or.inl ⟨h, hdry⟩
    · simp [buildStage, hB, hr] at h
      rcases h with h | h | h | h
      · exact Or.inr (Or.inl ⟨_, h⟩)
      · exact Or.inl ⟨h, hdry⟩
      · exact Or.inr (Or.inl ⟨_, h⟩)
      · exact Or.inr (Or.inr ⟨_, h⟩)
  · simp only [Bool.not_eq_true] at hB
    simp [buildStage, hB] at h
    rcases h with h | h
    · exact Or.inr (Or.inl ⟨_, h⟩)
    · exact Or.inr (Or.inr ⟨_, h⟩)

lemma shape_commitStage {cfg : Config} {env : Env} {version : String}
    {ev : Event} (h : ev ∈ commitStage cfg env version) :
    ev = Event.exec Cmd.gitDiff ∨ ev = runIfNotDryEv cfg Cmd.gitAdd ∨
      ev = runIfNotDryEv cfg (Cmd.gitCommit ("release: v" ++ version)) ∨
      (∃ s, ev = Event.step s) ∨ ∃ s, ev = Event.log s := by
  by_cases hd : env.diffOutput = ""
  · simp [commitStage, hd] at h
    rcases h with h | h <;> subst h <;> simp
  · simp [commitStage, hd] at h
    rcases h with h | h | h | h <;> subst h <;> simp

lemma shape_publishPackage {cfg : Config} {env : Env} {version nm : String}
    {m : Manifest} {ev : Event}
    (h : ev ∈ (publishPackage cfg env version nm m).1) :
    ev = Event.fileRead (PkgPath.pkg nm) ∨ (∃ s, ev = Event.step s) ∨
      (∃ s, ev = Event.log s) ∨
      ∃ tg, ev = runIfNotDryEv cfg (Cmd.yarnPublish nm version tg) := by
  have hsk : skippedPackages.contains nm = false := rfl
  cases hp : m.privateFlag with
  | true =>
    simp [publishPackage, skippedPackages, hsk, hp] at h
    subst h
    simp
  | false =>
    cases hdry : cfg.isDryRun with
    | true =>
      simp [publishPackage, skippedPackages, hsk, hp, hdry] at h
      rcases h with h | h | h | h
      · exact Or.inl h
      · exact Or.inr (Or.inl ⟨_, h⟩)
      · refine Or.inr (Or.inr (Or.inr
          ⟨releaseTagFor cfg.argsTag version nm, ?_⟩))
        rw [h]
        simp [runIfNotDryEv, hdry]
      · exact Or.inr (Or.inr (Or.inl ⟨_, h⟩))
    | false =>
      rcases hr : env.publishResult nm with stderr | u
      · cases hs : strContains stderr "previously published" with
        | true =>
          simp [publishPackage, skippedPackages, hsk, hp, hdry, hr, hs] at h
          rcases h with h | h | h | h
          · exact Or.inl h
          · exact Or.inr (Or.inl ⟨_, h⟩)
          · refine Or.inr (Or.inr (Or.inr
              ⟨releaseTagFor cfg.argsTag version nm, ?_⟩))
            rw [h]
            simp [runIfNotDryEv, hdry]
          · exact Or.inr (Or.inr (Or.inl ⟨_, h⟩))
        | false =>
          simp [publishPackage, skippedPackages, hsk, hp, hdry, hr, hs] at h
          rcases h with h | h | h
          · exact Or.inl h
          · exact Or.inr (Or.inl ⟨_, h⟩)
          · refine Or.inr (Or.inr (Or.inr
              ⟨releaseTagFor cfg.argsTag version nm, ?_⟩))
            rw [h]
            simp [runIfNotDryEv, hdry]
      · simp [publishPackage, skippedPackages, hsk, hp, hdry, hr] at h
        rcases h with h | h | h | h
        · exact Or.inl h
        · exact Or.inr (Or.inl ⟨_, h⟩)
        · refine Or.inr (Or.inr (Or.inr
            ⟨releaseTagFor cfg.argsTag version nm, ?_⟩))
          rw [h]
          simp [runIfNotDryEv, hdry]
        · exact Or.inr (Or.inr (Or.inl ⟨_, h⟩))

lemma shape_publishStage {cfg : Config} {env : Env} {version : String}
    {ps : List (String × Manifest)} {ev : Event}
    (h : ev ∈ (publishStage cfg env version ps).1) :
    ∃ nm m, (nm, m) ∈ ps ∧ ev ∈ (publishPackage cfg env version nm m).1 := by
  induction ps with
  | nil => simp [publishStage] at h
  | cons e rest ih =>
    simp only [publishStage] at h
    rcases he : (publishPackage cfg env version e.1 e.2).2 with _ | err
    · rw [he] at h
      simp only [List.mem_append] at h
      rcases h with h | h
      · refine ⟨e.1, e.2, ?_, h⟩
        rw [Prod.mk.eta]
        exact List.mem_cons_self e rest
      · rcases ih h with ⟨nm, m, hmem, hev⟩
        exact ⟨nm, m, List.mem_cons_of_mem e hmem, hev⟩
    · rw [he] at h
      refine ⟨e.1, e.2, ?_, h⟩
      rw [Prod.mk.eta]
      exact List.mem_cons_self e rest

lemma shape_tagPushStage {cfg : Config} {env : Env} {version : String}
    {ev : Event} (h : ev ∈ (tagPushStage cfg env version).1) :
    (∃ s, ev = Event.step s) ∨
      ev = runIfNotDryEv cfg (Cmd.gitTag ("v" ++ version)) ∨
      ev = runIfNotDryEv cfg (Cmd.gitPushTag ("v" ++ version)) ∨
      ev = runIfNotDryEv cfg Cmd.gitPush := by
  cases hdry : cfg.isDryRun with
  | true =>
    have hrw : ∀ c, runIfNotDryEv cfg c = Event.dryLog c := by
      intro c
      simp [runIfNotDryEv, hdry]
    simp only [hrw]
    simp [tagPushStage, hdry] at h
    rcases h with h | h | h | h
    · exact Or.inl ⟨_, h⟩
    · exact Or.inr (Or.inl h)
    · exact Or.inr (Or.inr (Or.inl h))
    · exact Or.inr (Or.inr (Or.inr h))
  | false =>
    have hrw : ∀ c, runIfNotDryEv cfg c = Event.exec c := by
      intro c
      simp [runIfNotDryEv, hdry]
    simp only [hrw]
    rcases ht : env.tagResult with e₁ | u₁
    · simp [tagPushStage, hdry, ht] at h
      rcases h with h | h
      · exact Or.inl ⟨_, h⟩
      · exact Or.inr (Or.inl h)
    · rcases hpt : env.pushTagResult with e₂ | u₂
      · simp [tagPushStage, hdry, ht, hpt] at h
        rcases h with h | h | h
        · exact Or.inl ⟨_, h⟩
        · exact Or.inr (Or.inl h)
        · exact Or.inr (Or.inr (Or.inl h))
      · rcases hp2 : env.pushResult with e₃ | u₃ <;>
          simp [tagPushStage, hdry, ht, hpt, hp2] at h <;>
          rcases h with h | h | h | h
        · exact Or.inl ⟨_, h⟩
        · exact Or.inr (Or.inl h)
        · exact Or.inr (Or.inr (Or.inl h))
        · exact Or.inr (Or.inr (Or.inr h))
        · exact Or.inl ⟨_, h⟩
        · exact Or.inr (Or.inl h)
        · exact Or.inr (Or.inr (Or.inl h))
        · exact Or.inr (Or.inr (Or.inr h))

lemma shape_summaryStage {cfg : Config} {ev : Event}
    (h : ev ∈ summaryStage cfg) : ∃ s, ev = Event.log s := by
  cases hdry : cfg.isDryRun with
  | true =>
    simp [summaryStage, skippedPackages, hdry] at h
    rcases h with h | h <;> exact ⟨_, h⟩
  | false =>
    simp [summaryStage, skippedPackages, hdry] at h
    exact ⟨_, h⟩

lemma mem_mainRun {cfg : Config} {env : Env} {version : String}
    {rootPkg : Manifest} {pkgManifests : List (String × Manifest)} {ev : Event}
    (h : ev ∈ (mainRun cfg env version rootPkg pkgManifests).1) :
    ev ∈ testStage cfg ∨
      ev ∈ (propagationStage version rootPkg pkgManifests).1 ∨
      ev ∈ (buildStage cfg env).1 ∨
      ev ∈ commitStage cfg env version ∨
      ev = Event.step "Publishing packages..." ∨
      ev ∈ (publishStage cfg env version
          (propagationStage version rootPkg pkgManifests).2.2).1 ∨
      ev ∈ (tagPushStage cfg env version).1 ∨
      ev ∈ summaryStage cfg := by
  simp only [mainRun] at h
  rcases hb : (buildStage cfg env).2 with _ | e₁ <;> rw [hb] at h
  · rcases hp : (publishStage cfg env version
        (propagationStage version rootPkg pkgManifests).2.2).2 with _ | e₂ <;>
      rw [hp] at h
    · rcases ht : (tagPushStage cfg env version).2 with _ | e₃ <;> rw [ht] at h
      · simp only [List.mem_append, List.mem_cons, List.not_mem_nil,
          or_false] at h
        tauto
      · simp only [List.mem_append, List.mem_cons, List.not_mem_nil,
          or_false] at h
        tauto
    · simp only [List.mem_append, List.mem_cons, List.not_mem_nil,
        or_false] at h
      tauto
  · simp only [List.mem_append] at h
    tauto

lemma buildStage_dry_none {cfg : Config} {env : Env}
    (hdry : cfg.isDryRun = true) : (buildStage cfg env).2 = none := by
  simp [buildStage, hdry]

lemma publishPackage_dry_none {cfg : Config} {env : Env} {version nm : String}
    {m : Manifest} (hdry : cfg.isDryRun = true) :
    (publishPackage cfg env version nm m).2 = none := by
  cases hp : m.privateFlag <;>
    simp [publishPackage, skippedPackages, hp, hdry]

lemma publishStage_dry_none {cfg : Config} {env : Env} {version : String}
    (hdry : cfg.isDryRun = true) (ps : List (String × Manifest)) :
    (publishStage cfg env version ps).2 = none := by
  induction ps with
  | nil => simp [publishStage]
  | cons e rest ih =>
    simp only [publishStage]
    rw [publishPackage_dry_none hdry]
    exact ih

lemma tagPushStage_dry_none {cfg : Config} {env : Env} {version : String}
    (hdry : cfg.isDryRun = true) : (tagPushStage cfg env version).2 = none := by
  simp [tagPushStage, hdry]

lemma mainRun_eq_of_none {cfg : Config} {env : Env} {version : String}
    {rootPkg : Manifest} {pkgManifests : List (String × Manifest)}
    (hb : (buildStage cfg env).2 = none)
    (hp : (publishStage cfg env version
        (propagationStage version rootPkg pkgManifests).2.2).2 = none)
    (ht : (tagPushStage cfg env version).2 = none) :
    mainRun cfg env version rootPkg pkgManifests =
      (testStage cfg ++ (propagationStage version rootPkg pkgManifests).1 ++
          (buildStage cfg env).1 ++ commitStage cfg env version ++
          [Event.step "Publishing packages..."] ++
          (publishStage cfg env version
            (propagationStage version rootPkg pkgManifests).2.2).1 ++
          (tagPushStage cfg env version).1 ++ summaryStage cfg,
        none) := by
  simp only [mainRun, hb, hp, ht]

lemma mainRun_event_forms {cfg : Config} {env : Env} {version : String}
    {rootPkg : Manifest} {pkgManifests : List (String × Manifest)} {ev : Event}
    (h : ev ∈ (mainRun cfg env version rootPkg pkgManifests).1) :
    (∃ s, ev = Event.step s) ∨ (∃ s, ev = Event.log s) ∨
      (∃ p, ev = Event.fileRead p) ∨ (∃ p, ev = Event.fileWrite p) ∨
      ∃ c, (ev = Event.exec c ∨ ev = Event.dryLog c) ∧
        (c = Cmd.gitDiff ∨ c = Cmd.yarnBuild ∨ c = Cmd.gitAdd ∨
          c = Cmd.gitCommit ("release: v" ++ version) ∨
          (∃ nm tg, c = Cmd.yarnPublish nm version tg) ∨
          c = Cmd.gitTag ("v" ++ version) ∨
          c = Cmd.gitPushTag ("v" ++ version) ∨ c = Cmd.gitPush) := by
  rcases mem_mainRun h with h1 | h1 | h1 | h1 | h1 | h1 | h1 | h1
  · rcases shape_testStage h1 with ⟨s, h2⟩ | ⟨s, h2⟩
    · exact Or.inl ⟨s, h2⟩
    · exact Or.inr (Or.inl ⟨s, h2⟩)
  · rcases shape_propagationStage h1 with ⟨s, h2⟩ | h2 | h2 | ⟨nm, hnm, h2 | h2⟩
    · exact Or.inl ⟨s, h2⟩
    · exact Or.inr (Or.inr (Or.inl ⟨_, h2⟩))
    · exact Or.inr (Or.inr (Or.inr (Or.inl ⟨_, h2⟩)))
    · exact Or.inr (Or.inr (Or.inl ⟨_, h2⟩))
    · exact Or.inr (Or.inr (Or.inr (Or.inl ⟨_, h2⟩)))
  · rcases shape_buildStage h1 with ⟨h2, hdd⟩ | ⟨s, h2⟩ | ⟨s, h2⟩
    · exact Or.inr (Or.inr (Or.inr (Or.inr
        ⟨Cmd.yarnBuild, Or.inl h2, Or.inr (Or.inl rfl)⟩)))
    · exact Or.inl ⟨s, h2⟩
    · exact Or.inr (Or.inl ⟨s, h2⟩)
  · rcases shape_commitStage h1 with h2 | h2 | h2 | ⟨s, h2⟩ | ⟨s, h2⟩
    · exact Or.inr (Or.inr (Or.inr (Or.inr
        ⟨Cmd.gitDiff, Or.inl h2, Or.inl rfl⟩)))
    · cases hdd : cfg.isDryRun <;> simp [runIfNotDryEv, hdd] at h2
      · exact Or.inr (Or.inr (Or.inr (Or.inr
          ⟨Cmd.gitAdd, Or.inl h2, Or.inr (Or.inr (Or.inl rfl))⟩)))
      · exact Or.inr (Or.inr (Or.inr (Or.inr
          ⟨Cmd.gitAdd, Or.inr h2, Or.inr (Or.inr (Or.inl rfl))⟩)))
    · cases hdd : cfg.isDryRun <;> simp [runIfNotDryEv, hdd] at h2
      · exact Or.inr (Or.inr (Or.inr (Or.inr
          ⟨Cmd.gitCommit ("release: v" ++ version), Or.inl h2,
            Or.inr (Or.inr (Or.inr (Or.inl rfl)))⟩)))
      · exact Or.inr (Or.inr (Or.inr (Or.inr
          ⟨Cmd.gitCommit ("release: v" ++ version), Or.inr h2,
            Or.inr (Or.inr (Or.inr (Or.inl rfl)))⟩)))
    · exact Or.inl ⟨s, h2⟩
    · exact Or.inr (Or.inl ⟨s, h2⟩)
  · exact Or.inl ⟨_, h1⟩
  · rcases shape_publishStage h1 with ⟨nm, m, hmem, hev⟩
    rcases shape_publishPackage hev with h2 | ⟨s, h2⟩ | ⟨s, h2⟩ | ⟨tg, h2⟩
    · exact Or.inr (Or.inr (Or.inl ⟨_, h2⟩))
    · exact Or.inl ⟨s, h2⟩
    · exact Or.inr (Or.inl ⟨s, h2⟩)
    · cases hdd : cfg.isDryRun <;> simp [runIfNotDryEv, hdd] at h2
      · exact Or.inr (Or.inr (Or.inr (Or.inr
          ⟨Cmd.yarnPublish nm version tg, Or.inl h2,
            Or.inr (Or.inr (Or.inr (Or.inr (Or.inl ⟨nm, tg, rfl⟩))))⟩)))
      · exact Or.inr (Or.inr (Or.inr (Or.inr
          ⟨Cmd.yarnPublish nm version tg, Or.inr h2,
            Or.inr (Or.inr (Or.inr (Or.inr (Or.inl ⟨nm, tg, rfl⟩))))⟩)))
  · rcases shape_tagPushStage h1 with ⟨s, h2⟩ | h2 | h2 | h2
    · exact Or.inl ⟨s, h2⟩
    · cases hdd : cfg.isDryRun <;> simp [runIfNotDryEv, hdd] at h2
      · exact Or.inr (Or.inr (Or.inr (Or.inr
          ⟨Cmd.gitTag ("v" ++ version), Or.inl h2,
            Or.inr (Or.inr (Or.inr (Or.inr (Or.inr (Or.inl rfl)))))⟩)))
      · exact Or.inr (Or.inr (Or.inr (Or.inr
          ⟨Cmd.gitTag ("v" ++ version), Or.inr h2,
            Or.inr (Or.inr (Or.inr (Or.inr (Or.inr (Or.inl rfl)))))⟩)))
    · cases hdd : cfg.isDryRun <;> simp [runIfNotDryEv, hdd] at h2
      · exact Or.inr (Or.inr (Or.inr (Or.inr
          ⟨Cmd.gitPushTag ("v" ++ version), Or.inl h2,
            Or.inr (Or.inr (Or.inr (Or.inr (Or.inr (Or.inr (Or.inl rfl))))))⟩)))
      · exact Or.inr (Or.inr (Or.inr (Or.inr
          ⟨Cmd.gitPushTag ("v" ++ version), Or.inr h2,
            Or.inr (Or.inr (Or.inr (Or.inr (Or.inr (Or.inr (Or.inl rfl))))))⟩)))
    · cases hdd : cfg.isDryRun <;> simp [runIfNotDryEv, hdd] at h2
      · exact Or.inr (Or.inr (Or.inr (Or.inr
          ⟨Cmd.gitPush, Or.inl h2,
            Or.inr (Or.inr (Or.inr (Or.inr (Or.inr (Or.inr (Or.inr rfl))))))⟩)))
      · exact Or.inr (Or.inr (Or.inr (Or.inr
          ⟨Cmd.gitPush, Or.inr h2,
            Or.inr (Or.inr (Or.inr (Or.inr (Or.inr (Or.inr (Or.inr rfl))))))⟩)))
  · rcases shape_summaryStage h1 with ⟨s, h2⟩
    exact Or.inr (Or.inl ⟨s, h2⟩)

lemma mem_mainRun_of_prop {cfg : Config} {env : Env} {version : String}
    {rootPkg : Manifest} {pkgManifests : List (String × Manifest)} {ev : Event}
    (h : ev ∈ (propagationStage version rootPkg pkgManifests).1) :
    ev ∈ (mainRun cfg env version rootPkg pkgManifests).1 := by
  simp only [mainRun]
  rcases hb : (buildStage cfg env).2 with _ | e₁
  · rcases hp : (publishStage cfg env version
        (propagationStage version rootPkg pkgManifests).2.2).2 with _ | e₂
    · rcases ht : (tagPushStage cfg env version).2 with _ | e₃ <;>
        simp [List.mem_append, h]
    · simp [List.mem_append, h]
  · simp [List.mem_append, h]

lemma mem_mainRun_of_commit {cfg : Config} {env : Env} {version : String}
    {rootPkg : Manifest} {pkgManifests : List (String × Manifest)} {ev : Event}
    (hb : (buildStage cfg env).2 = none)
    (h : ev ∈ commitStage cfg env version) :
    ev ∈ (mainRun cfg env version rootPkg pkgManifests).1 := by
  simp only [mainRun, hb]
  rcases hp : (publishStage cfg env version
      (propagationStage version rootPkg pkgManifests).2.2).2 with _ | e₂
  · rcases ht : (tagPushStage cfg env version).2 with _ | e₃ <;>
      simp [List.mem_append, h]
  · simp [List.mem_append, h]

/-- Claim C2: under `--dry`, the only live command execution in the whole
pipeline is the read-only `git diff` — which does execute live — and the
propagation stage still rewrites the root manifest file and every package
manifest file. -/
theorem c2_dry_run_only_git_diff (cfg : Config) (env : Env) (version : String)
    (rootPkg : Manifest) (pkgManifests : List (String × Manifest))
    (hdry : cfg.isDryRun = true) :
    (∀ c, Event.exec c ∈ (mainRun cfg env version rootPkg pkgManifests).1 →
        c = Cmd.gitDiff) ∧
      Event.exec Cmd.gitDiff ∈ (mainRun cfg env version rootPkg pkgManifests).1 ∧
      Event.fileWrite PkgPath.root ∈
        (mainRun cfg env version rootPkg pkgManifests).1 ∧
      ∀ nm, nm ∈ pkgManifests.map Prod.fst →
        Event.fileWrite (PkgPath.pkg nm) ∈
          (mainRun cfg env version rootPkg pkgManifests).1 := by
  refine ⟨?_, ?_, ?_, ?_⟩
  · intro c hc
    rcases mem_mainRun hc with h1 | h1 | h1 | h1 | h1 | h1 | h1 | h1
    · rcases shape_testStage h1 with ⟨s, h2⟩ | ⟨s, h2⟩ <;> simp at h2
    · rcases shape_propagationStage h1 with
        ⟨s, h2⟩ | h2 | h2 | ⟨nm, hnm, h2 | h2⟩ <;> simp at h2
    · rcases shape_buildStage h1 with ⟨h2, hdd⟩ | ⟨s, h2⟩ | ⟨s, h2⟩
      · rw [hdry] at hdd
        exact absurd hdd (by simp)
      · simp at h2
      · simp at h2
    · rcases shape_commitStage h1 with h2 | h2 | h2 | ⟨s, h2⟩ | ⟨s, h2⟩
      · simp at h2
        exact h2
      · simp [runIfNotDryEv, hdry] at h2
      · simp [runIfNotDryEv, hdry] at h2
      · simp at h2
      · simp at h2
    · simp at h1
    · rcases shape_publishStage h1 with ⟨nm, m, hmem, hev⟩
      rcases shape_publishPackage hev with
        h2 | ⟨s, h2⟩ | ⟨s, h2⟩ | ⟨tg, h2⟩ <;>
        simp [runIfNotDryEv, hdry] at h2
    · rcases shape_tagPushStage h1 with ⟨s, h2⟩ | h2 | h2 | h2 <;>
        simp [runIfNotDryEv, hdry] at h2
    · rcases shape_summaryStage h1 with ⟨s, h2⟩
      simp at h2
  · refine mem_mainRun_of_commit (buildStage_dry_none hdry) ?_
    simp [commitStage]
  · refine mem_mainRun_of_prop ?_
    simp [propagationStage]
  · intro nm hnm
    refine mem_mainRun_of_prop ?_
    rw [List.mem_map] at hnm
    rcases hnm with ⟨e, he, rfl⟩
    simp only [propagationStage]
    refine List.mem_append_right _ ?_
    rw [List.mem_flatten]
    exact ⟨[Event.fileRead (PkgPath.pkg e.1), Event.fileWrite (PkgPath.pkg e.1)],
      List.mem_map_of_mem _ he, by simp⟩

/-- Witness for C2: a concrete dry run over one package. -/
theorem c2_witness :
    (∀ c, Event.exec c ∈ (mainRun cfgDry envOk "2.0.0" mRoot [("foo", mFoo)]).1 →
        c = Cmd.gitDiff) ∧
      Event.exec Cmd.gitDiff ∈
        (mainRun cfgDry envOk "2.0.0" mRoot [("foo", mFoo)]).1 ∧
      Event.fileWrite PkgPath.root ∈
        (mainRun cfgDry envOk "2.0.0" mRoot [("foo", mFoo)]).1 ∧
      ∀ nm, nm ∈ [("foo", mFoo)].map Prod.fst →
        Event.fileWrite (PkgPath.pkg nm) ∈
          (mainRun cfgDry envOk "2.0.0" mRoot [("foo", mFoo)]).1 :=
  c2_dry_run_only_git_diff cfgDry envOk "2.0.0" mRoot [("foo", mFoo)] rfl

/-- Claim C5 (counterexample): in a live run with tests not skipped, the test
gate issues no command at all (the test invocations are commented out in the
source), so no test-suite command runs and no test failure can abort the
pipeline. -/
theorem c5_counterexample :
    cfgLive.skipTests = false ∧ cfgLive.isDryRun = false ∧
      (testStage cfgLive).filterMap Event.issued = [] := by
  decide

/-- Claim C5 (amended): the test-gate stage hands no command to any executor
in any configuration — it only prints a notice — and in particular no test
command (`yarnTest`) is ever executed or even dry-run-logged anywhere in the
pipeline. -/
theorem c5_test_stage_runs_nothing (cfg : Config) (env : Env) (version : String)
    (rootPkg : Manifest) (pkgManifests : List (String × Manifest)) :
    (testStage cfg).filterMap Event.issued = [] ∧
      Event.exec Cmd.yarnTest ∉ (mainRun cfg env version rootPkg pkgManifests).1 ∧
      Event.dryLog Cmd.yarnTest ∉
        (mainRun cfg env version rootPkg pkgManifests).1 := by
  refine ⟨?_, ?_, ?_⟩
  · simp [testStage, Event.issued]
  · intro h
    rcases mainRun_event_forms h with
      ⟨s, h2⟩ | ⟨s, h2⟩ | ⟨p, h2⟩ | ⟨p, h2⟩ | ⟨c, hc, hlist⟩
    · simp at h2
    · simp at h2
    · simp at h2
    · simp at h2
    · rcases hc with hc | hc
      · have hce : c = Cmd.yarnTest := by
          simpa [eq_comm] using hc
        subst hce
        rcases hlist with h3 | h3 | h3 | h3 | ⟨nm, tg, h3⟩ | h3 | h3 | h3 <;>
          simp at h3
      · simp at hc
  · intro h
    rcases mainRun_event_forms h with
      ⟨s, h2⟩ | ⟨s, h2⟩ | ⟨p, h2⟩ | ⟨p, h2⟩ | ⟨c, hc, hlist⟩
    · simp at h2
    · simp at h2
    · simp at h2
    · simp at h2
    · rcases hc with hc | hc
      · simp at hc
      · have hce : c = Cmd.yarnTest := by
          simpa [eq_comm] using hc
        subst hce
        rcases hlist with h3 | h3 | h3 | h3 | ⟨nm, tg, h3⟩ | h3 | h3 | h3 <;>
          simp at h3

/-- Witness for C5: the test command never executes in a concrete live run. -/
theorem c5_witness :
    Event.exec Cmd.yarnTest ∉
      (mainRun cfgLive envOk "2.0.0" mRoot [("foo", mFoo)]).1 :=
  (c5_test_stage_runs_nothing cfgLive envOk "2.0.0" mRoot [("foo", mFoo)]).2.1

/-- Claim C10: `skippedPackages` is the empty list and nothing ever adds to
it, so the skip check in `publishPackage` never fires and the end-of-run
skipped-packages summary is never printed in any run. -/
theorem c10_skipped_packages_never :
    skippedPackages = [] ∧ (∀ nm, skippedPackages.contains nm = false) ∧
      ∀ (cfg : Config) (env : Env) (versionValid confirmYes : Bool)
        (version : String) (rootPkg : Manifest)
        (pkgManifests : List (String × Manifest)) (l : List String),
        Event.skippedSummary l ∉
          (topLevel cfg env versionValid confirmYes version rootPkg
              pkgManifests).trace := by
  refine ⟨rfl, fun nm => rfl, ?_⟩
  intro cfg env vv cy version rootPkg pkgManifests l h
  rcases h2 : (fullMain cfg env vv cy version rootPkg pkgManifests).2 with _ | e <;>
    simp [topLevel, h2] at h <;>
    cases vv <;> cases cy <;> simp [fullMain] at h <;>
    rcases mainRun_event_forms h with
      ⟨s, h3⟩ | ⟨s, h3⟩ | ⟨p, h3⟩ | ⟨p, h3⟩ | ⟨c, hc, hlist⟩ <;>
    first
    | simp at h3
    | (rcases hc with hc | hc <;> simp at hc)

/-- Witness for C10: no skipped-packages summary in a concrete live run. -/
theorem c10_witness :
    Event.skippedSummary ["x"] ∉
      (topLevel cfgLive envOk true true "2.0.0" mRoot [("foo", mFoo)]).trace :=
  c10_skipped_packages_never.2.2 cfgLive envOk true true "2.0.0" mRoot
    [("foo", mFoo)] ["x"]

lemma publishStage_append (cfg : Config) (env : Env) (version : String)
    (l₁ l₂ : List (String × Manifest)) :
    publishStage cfg env version (l₁ ++ l₂) =
      if (publishStage cfg env version l₁).2 = none then
        ((publishStage cfg env version l₁).1 ++
            (publishStage cfg env version l₂).1,
          (publishStage cfg env version l₂).2)
      else publishStage cfg env version l₁ := by
  induction l₁ with
  | nil => simp [publishStage]
  | cons e rest ih =>
    simp only [List.cons_append, publishStage]
    rcases he : (publishPackage cfg env version e.1 e.2).2 with _ | err
    · by_cases hr : (publishStage cfg env version rest).2 = none
      · simp [ih, hr, List.append_assoc]
      · simp [ih, hr]
    · simp

lemma publishPackage_already_none {cfg : Config} {env : Env}
    {version nm : String} {m : Manifest} {stderr : String}
    (hlive : cfg.isDryRun = false) (hpriv : m.privateFlag = false)
    (hres : env.publishResult nm = Except.error stderr)
    (hs : strContains stderr "previously published" = true) :
    (publishPackage cfg env version nm m).2 = none := by
  have hsk : skippedPackages.contains nm = false := rfl
  simp [publishPackage, skippedPackages, hsk, hpriv, hlive, hres, hs]

lemma publishPackage_other_some {cfg : Config} {env : Env}
    {version nm : String} {m : Manifest} {stderr : String}
    (hlive : cfg.isDryRun = false) (hpriv : m.privateFlag = false)
    (hres : env.publishResult nm = Except.error stderr)
    (hs : strContains stderr "previously published" = false) :
    (publishPackage cfg env version nm m).2 =
      some (RunError.publishFailed nm stderr) := by
  have hsk : skippedPackages.contains nm = false := rfl
  simp [publishPackage, skippedPackages, hsk, hpriv, hlive, hres, hs]

lemma step_push_mem_tagPushStage {cfg : Config} {env : Env} {version : String} :
    Event.step "Pushing to GitHub..." ∈ (tagPushStage cfg env version).1 := by
  cases hdd : cfg.isDryRun
  · rcases ht : env.tagResult with e₁ | u₁
    · simp [tagPushStage, hdd, ht]
    · rcases hpt : env.pushTagResult with e₂ | u₂
      · simp [tagPushStage, hdd, ht, hpt]
      · rcases hpu : env.pushResult with e₃ | u₃ <;>
          simp [tagPushStage, hdd, ht, hpt, hpu]
  · simp [tagPushStage, hdd]

/-- Claim C3: in a live run, when a package's publish command fails and its
stderr matches `previously published`, the publish loop records the skip and
carries on with all remaining packages, its final outcome being that of the
rest of the list; when the stderr does not match, the error is rethrown
immediately — the trace stops at the failing package and none of the
remaining packages is attempted.  Moreover whenever the whole publish loop
ends without error (and the build did too), the pipeline goes on to the
tag-and-push stage. -/
theorem c3_already_published_tolerance (cfg : Config) (env : Env)
    (version : String) (l₁ l₂ : List (String × Manifest)) (nm : String)
    (m : Manifest) (stderr : String)
    (hlive : cfg.isDryRun = false) (hpriv : m.privateFlag = false)
    (hl₁ : (publishStage cfg env version l₁).2 = none)
    (hres : env.publishResult nm = Except.error stderr) :
    (strContains stderr "previously published" = true →
        publishStage cfg env version (l₁ ++ (nm, m) :: l₂) =
          ((publishStage cfg env version l₁).1 ++
              (publishPackage cfg env version nm m).1 ++
              (publishStage cfg env version l₂).1,
            (publishStage cfg env version l₂).2)) ∧
      (strContains stderr "previously published" = false →
        publishStage cfg env version (l₁ ++ (nm, m) :: l₂) =
          ((publishStage cfg env version l₁).1 ++
              (publishPackage cfg env version nm m).1,
            some (RunError.publishFailed nm stderr))) ∧
      ∀ (rootPkg : Manifest) (pkgManifests : List (String × Manifest)),
        (buildStage cfg env).2 = none →
        (publishStage cfg env version
            (propagationStage version rootPkg pkgManifests).2.2).2 = none →
        Event.step "Pushing to GitHub..." ∈
          (mainRun cfg env version rootPkg pkgManifests).1 := by
  refine ⟨?_, ?_, ?_⟩
  · intro hs
    have h2 := @publishPackage_already_none cfg env version nm m stderr hlive hpriv hres hs
    have hcons : publishStage cfg env version ((nm, m) :: l₂) =
        ((publishPackage cfg env version nm m).1 ++
            (publishStage cfg env version l₂).1,
          (publishStage cfg env version l₂).2) := by
      simp [publishStage, h2]
    rw [publishStage_append, if_pos hl₁, hcons]
    simp [List.append_assoc]
  · intro hs
    have h2 := @publishPackage_other_some cfg env version nm m stderr hlive hpriv hres hs
    have hcons : publishStage cfg env version ((nm, m) :: l₂) =
        ((publishPackage cfg env version nm m).1,
          some (RunError.publishFailed nm stderr)) := by
      simp [publishStage, h2]
    rw [publishStage_append, if_pos hl₁, hcons]
  · intro rootPkg pkgManifests hb hp
    simp only [mainRun, hb, hp]
    rcases ht2 : (tagPushStage cfg env version).2 with _ | e₄ <;>
      simp [List.mem_append, step_push_mem_tagPushStage]

/-- Sample non-private manifest used by the publish-loop witnesses. -/
def mA : Manifest :=
  { name := "a", version := "1.0.0", dependencies := none,
    peerDependencies := none, privateFlag := false, extraFields := [] }

/-- Sample environment in which publishing package `b` fails with an
already-published error and everything else succeeds. -/
def envPub : Env :=
  { diffOutput := "diff"
    buildResult := .ok ()
    publishResult := fun nm =>
      if nm == "b" then .error "previously published" else .ok ()
    tagResult := .ok ()
    pushTagResult := .ok ()
    pushResult := .ok () }

/-- Witness for C3: with packages `a`, `b`, `c` where publishing `b` raises an
already-published error, the loop still processes `c` and ends cleanly. -/
theorem c3_witness :
    publishStage cfgLive envPub "1.2.3" ([("a", mA)] ++ ("b", mA) :: [("c", mA)]) =
      ((publishStage cfgLive envPub "1.2.3" [("a", mA)]).1 ++
          (publishPackage cfgLive envPub "1.2.3" "b" mA).1 ++
          (publishStage cfgLive envPub "1.2.3" [("c", mA)]).1,
        (publishStage cfgLive envPub "1.2.3" [("c", mA)]).2) :=
  (c3_already_published_tolerance cfgLive envPub "1.2.3" [("a", mA)]
      [("c", mA)] "b" mA "previously published" rfl rfl (by decide)
      rfl).1 (by decide)

lemma fileEvents_not_testStage {cfg : Config} {p : PkgPath} :
    Event.fileRead p ∉ testStage cfg ∧ Event.fileWrite p ∉ testStage cfg := by
  constructor <;> intro h <;>
    rcases shape_testStage h with ⟨s, h2⟩ | ⟨s, h2⟩ <;> simp at h2

lemma fileEvents_not_buildStage {cfg : Config} {env : Env} {p : PkgPath} :
    Event.fileRead p ∉ (buildStage cfg env).1 ∧
      Event.fileWrite p ∉ (buildStage cfg env).1 := by
  constructor <;> intro h <;>
    rcases shape_buildStage h with ⟨h2, hdd⟩ | ⟨s, h2⟩ | ⟨s, h2⟩ <;> simp at h2

lemma fileEvents_not_commitStage {cfg : Config} {env : Env} {version : String}
    {p : PkgPath} :
    Event.fileRead p ∉ commitStage cfg env version ∧
      Event.fileWrite p ∉ commitStage cfg env version := by
  constructor <;> intro h <;>
    rcases shape_commitStage h with h2 | h2 | h2 | ⟨s, h2⟩ | ⟨s, h2⟩ <;>
    first
    | simp at h2
    | (cases hdd : cfg.isDryRun <;> simp [runIfNotDryEv, hdd] at h2)

lemma fileEvents_not_tagPushStage {cfg : Config} {env : Env} {version : String}
    {p : PkgPath} :
    Event.fileRead p ∉ (tagPushStage cfg env version).1 ∧
      Event.fileWrite p ∉ (tagPushStage cfg env version).1 := by
  constructor <;> intro h <;>
    rcases shape_tagPushStage h with ⟨s, h2⟩ | h2 | h2 | h2 <;>
    first
    | simp at h2
    | (cases hdd : cfg.isDryRun <;> simp [runIfNotDryEv, hdd] at h2)

lemma fileEvents_not_summaryStage {cfg : Config} {p : PkgPath} :
    Event.fileRead p ∉ summaryStage cfg ∧
      Event.fileWrite p ∉ summaryStage cfg := by
  constructor <;> intro h <;>
    rcases shape_summaryStage h with ⟨s, h2⟩ <;> simp at h2

lemma fileWrite_not_publishStage {cfg : Config} {env : Env} {version : String}
    {ps : List (String × Manifest)} {p : PkgPath} :
    Event.fileWrite p ∉ (publishStage cfg env version ps).1 := by
  intro h
  rcases shape_publishStage h with ⟨nm, m, hmem, hev⟩
  rcases shape_publishPackage hev with h2 | ⟨s, h2⟩ | ⟨s, h2⟩ | ⟨tg, h2⟩ <;>
    first
    | simp at h2
    | (cases hdd : cfg.isDryRun <;> simp [runIfNotDryEv, hdd] at h2)

lemma flatten_write_count (nm : String) (ps : List (String × Manifest)) :
    ((ps.map fun e => [Event.fileRead (PkgPath.pkg e.1),
        Event.fileWrite (PkgPath.pkg e.1)]).flatten).count
        (Event.fileWrite (PkgPath.pkg nm)) = (ps.map Prod.fst).count nm := by
  induction ps with
  | nil => simp
  | cons e rest ih =>
    by_cases hnm : e.1 = nm
    · subst hnm
      simp [List.count_cons, List.count_append, ih]
    · simp [List.count_cons, List.count_append, ih, hnm]

lemma flatten_read_count (nm : String) (ps : List (String × Manifest)) :
    ((ps.map fun e => [Event.fileRead (PkgPath.pkg e.1),
        Event.fileWrite (PkgPath.pkg e.1)]).flatten).count
        (Event.fileRead (PkgPath.pkg nm)) = (ps.map Prod.fst).count nm := by
  induction ps with
  | nil => simp
  | cons e rest ih =>
    by_cases hnm : e.1 = nm
    · subst hnm
      simp [List.count_cons, List.count_append, ih]
    · simp [List.count_cons, List.count_append, ih, hnm]

lemma prop_write_count {version : String} {rootPkg : Manifest}
    {pkgManifests : List (String × Manifest)} {nm : String}
    (hnd : (pkgManifests.map Prod.fst).Nodup)
    (hmem : nm ∈ pkgManifests.map Prod.fst) :
    (propagationStage version rootPkg pkgManifests).1.count
      (Event.fileWrite (PkgPath.pkg nm)) = 1 := by
  simp only [propagationStage]
  simp [List.count_append, List.count_cons, flatten_write_count]
  exact List.count_eq_one_of_mem hnd hmem

lemma prop_read_count {version : String} {rootPkg : Manifest}
    {pkgManifests : List (String × Manifest)} {nm : String}
    (hnd : (pkgManifests.map Prod.fst).Nodup)
    (hmem : nm ∈ pkgManifests.map Prod.fst) :
    (propagationStage version rootPkg pkgManifests).1.count
      (Event.fileRead (PkgPath.pkg nm)) = 1 := by
  simp only [propagationStage]
  simp [List.count_append, List.count_cons, flatten_read_count]
  exact List.count_eq_one_of_mem hnd hmem

lemma publishPackage_read_count (cfg : Config) (env : Env) (version : String)
    (a nm : String) (m : Manifest) :
    (publishPackage cfg env version a m).1.count
      (Event.fileRead (PkgPath.pkg nm)) = if a = nm then 1 else 0 := by
  have hsk : skippedPackages.contains a = false := rfl
  by_cases ha : a = nm
  · subst ha
    cases hp : m.privateFlag with
    | true => simp [publishPackage, skippedPackages, hsk, hp, List.count_cons]
    | false =>
      cases hdd : cfg.isDryRun with
      | true =>
        simp [publishPackage, skippedPackages, hsk, hp, hdd, List.count_cons]
      | false =>
        rcases hr : env.publishResult a with stderr | u
        · cases hs : strContains stderr "previously published" <;>
            simp [publishPackage, skippedPackages, hsk, hp, hdd, hr, hs,
              List.count_cons]
        · simp [publishPackage, skippedPackages, hsk, hp, hdd, hr,
            List.count_cons]
  · cases hp : m.privateFlag with
    | true =>
      simp [publishPackage, skippedPackages, hsk, hp, ha, List.count_cons]
    | false =>
      cases hdd : cfg.isDryRun with
      | true =>
        simp [publishPackage, skippedPackages, hsk, hp, hdd, ha,
          List.count_cons]
      | false =>
        rcases hr : env.publishResult a with stderr | u
        · cases hs : strContains stderr "previously published" <;>
            simp [publishPackage, skippedPackages, hsk, hp, hdd, hr, hs, ha,
              List.count_cons]
        · simp [publishPackage, skippedPackages, hsk, hp, hdd, hr, ha,
            List.count_cons]

lemma publishStage_read_zero {cfg : Config} {env : Env} {version nm : String} :
    ∀ ps : List (String × Manifest), nm ∉ ps.map Prod.fst →
      (publishStage cfg env version ps).1.count
        (Event.fileRead (PkgPath.pkg nm)) = 0 := by
  intro ps
  induction ps with
  | nil =>
    intro _
    simp [publishStage]
  | cons e rest ih =>
    intro hnot
    have hne : ¬(e.1 = nm) := by
      intro hE
      exact hnot (by simp [hE])
    have hnotrest : nm ∉ rest.map Prod.fst := by
      intro hR
      exact hnot (by simp [hR])
    simp only [publishStage]
    rcases he : (publishPackage cfg env version e.1 e.2).2 with _ | err
    · simp [List.count_append, publishPackage_read_count, hne, ih hnotrest]
    · simp [publishPackage_read_count, hne]

lemma publishStage_read_one {cfg : Config} {env : Env} {version nm : String} :
    ∀ ps : List (String × Manifest), (ps.map Prod.fst).Nodup →
      nm ∈ ps.map Prod.fst →
      (publishStage cfg env version ps).2 = none →
      (publishStage cfg env version ps).1.count
        (Event.fileRead (PkgPath.pkg nm)) = 1 := by
  intro ps
  induction ps with
  | nil =>
    intro _ hmem _
    simp at hmem
  | cons e rest ih =>
    intro hnd hmem hnone
    have hh : (publishPackage cfg env version e.1 e.2).2 = none := by
      rcases he : (publishPackage cfg env version e.1 e.2).2 with _ | err
      · rfl
      · simp [publishStage, he] at hnone
    have hr : (publishStage cfg env version rest).2 = none := by
      simp only [publishStage, hh] at hnone
      exact hnone
    have htr : (publishStage cfg env version (e :: rest)).1 =
        (publishPackage cfg env version e.1 e.2).1 ++
          (publishStage cfg env version rest).1 := by
      simp [publishStage, hh]
    rw [htr, List.count_append, publishPackage_read_count]
    simp only [List.map_cons, List.nodup_cons] at hnd
    simp only [List.map_cons, List.mem_cons] at hmem
    rcases hmem with hmm | hmm
    · rw [if_pos hmm.symm]
      have h0 : (publishStage cfg env version rest).1.count
          (Event.fileRead (PkgPath.pkg nm)) = 0 :=
        publishStage_read_zero rest (hmm ▸ hnd.1)
      rw [h0]
    · have hne : ¬(e.1 = nm) := by
        intro hE
        exact hnd.1 (hE ▸ hmm)
      rw [if_neg hne, ih hnd.2 hmm hr]

lemma updated_names (version : String) (rootPkg : Manifest)
    (pkgManifests : List (String × Manifest)) :
    (propagationStage version rootPkg pkgManifests).2.2.map Prod.fst =
      pkgManifests.map Prod.fst := by
  simp [propagationStage, updateVersions, List.map_map, Function.comp]

/-- Claim C8 (counterexample): in a concrete live run with one package `foo`,
the trace contains a read of `foo`'s manifest file strictly after its write —
`publishPackage` re-reads each package manifest during the publish stage, so
manifests are read again after propagation. -/
theorem c8_counterexample :
    Event.fileRead (PkgPath.pkg "foo") ∈
      (((mainRun cfgLive envOk "2.0.0" mRoot [("foo", mFoo)]).1.dropWhile
          (fun ev => !(ev == Event.fileWrite (PkgPath.pkg "foo")))).drop 1) := by
  decide

/-- Claim C8 (amended): in every run, each package's manifest file is written
exactly once (during propagation); it is however read twice in a run that
completes without error — once by propagation before the write and once more
by the publish stage — rather than never being read again. -/
theorem c8_manifest_file_access (cfg : Config) (env : Env) (version : String)
    (rootPkg : Manifest) (pkgManifests : List (String × Manifest)) (nm : String)
    (hnd : (pkgManifests.map Prod.fst).Nodup)
    (hmem : nm ∈ pkgManifests.map Prod.fst) :
    (mainRun cfg env version rootPkg pkgManifests).1.count
        (Event.fileWrite (PkgPath.pkg nm)) = 1 ∧
      ((mainRun cfg env version rootPkg pkgManifests).2 = none →
        (mainRun cfg env version rootPkg pkgManifests).1.count
            (Event.fileRead (PkgPath.pkg nm)) = 2) := by
  constructor
  · have h1 := @prop_write_count version rootPkg pkgManifests nm hnd hmem
    have h0t : (testStage cfg).count (Event.fileWrite (PkgPath.pkg nm)) = 0 :=
      List.count_eq_zero.mpr fileEvents_not_testStage.2
    have h0b : (buildStage cfg env).1.count
        (Event.fileWrite (PkgPath.pkg nm)) = 0 :=
      List.count_eq_zero.mpr fileEvents_not_buildStage.2
    have h0c : (commitStage cfg env version).count
        (Event.fileWrite (PkgPath.pkg nm)) = 0 :=
      List.count_eq_zero.mpr fileEvents_not_commitStage.2
    have h0p : (publishStage cfg env version
        (propagationStage version rootPkg pkgManifests).2.2).1.count
        (Event.fileWrite (PkgPath.pkg nm)) = 0 :=
      List.count_eq_zero.mpr fileWrite_not_publishStage
    have h0tp : (tagPushStage cfg env version).1.count
        (Event.fileWrite (PkgPath.pkg nm)) = 0 :=
      List.count_eq_zero.mpr fileEvents_not_tagPushStage.2
    have h0s : (summaryStage cfg).count (Event.fileWrite (PkgPath.pkg nm)) = 0 :=
      List.count_eq_zero.mpr fileEvents_not_summaryStage.2
    simp only [mainRun]
    rcases hb : (buildStage cfg env).2 with _ | e₁
    · rcases hp : (publishStage cfg env version
          (propagationStage version rootPkg pkgManifests).2.2).2 with _ | e₂
      · rcases ht : (tagPushStage cfg env version).2 with _ | e₃ <;>
          simp [List.count_append, List.count_cons, h1, h0t, h0b, h0c, h0p,
            h0tp, h0s]
      · simp [List.count_append, List.count_cons, h1, h0t, h0b, h0c, h0p]
    · simp [List.count_append, h1, h0t, h0b]
  · intro hnone
    rcases hb : (buildStage cfg env).2 with _ | e₁
    · rcases hpub : (publishStage cfg env version
          (propagationStage version rootPkg pkgManifests).2.2).2 with _ | e₂
      · rcases htp : (tagPushStage cfg env version).2 with _ | e₃
        · have hndU : ((propagationStage version rootPkg
              pkgManifests).2.2.map Prod.fst).Nodup := by
            rw [updated_names]
            exact hnd
          have hmemU : nm ∈ (propagationStage version rootPkg
              pkgManifests).2.2.map Prod.fst := by
            rw [updated_names]
            exact hmem
          have hp1 := publishStage_read_one
            (propagationStage version rootPkg pkgManifests).2.2 hndU hmemU hpub
          have h1 := @prop_read_count version rootPkg pkgManifests nm hnd hmem
          have h0t : (testStage cfg).count
              (Event.fileRead (PkgPath.pkg nm)) = 0 :=
            List.count_eq_zero.mpr fileEvents_not_testStage.1
          have h0b : (buildStage cfg env).1.count
              (Event.fileRead (PkgPath.pkg nm)) = 0 :=
            List.count_eq_zero.mpr fileEvents_not_buildStage.1
          have h0c : (commitStage cfg env version).count
              (Event.fileRead (PkgPath.pkg nm)) = 0 :=
            List.count_eq_zero.mpr fileEvents_not_commitStage.1
          have h0tp : (tagPushStage cfg env version).1.count
              (Event.fileRead (PkgPath.pkg nm)) = 0 :=
            List.count_eq_zero.mpr fileEvents_not_tagPushStage.1
          have h0s : (summaryStage cfg).count
              (Event.fileRead (PkgPath.pkg nm)) = 0 :=
            List.count_eq_zero.mpr fileEvents_not_summaryStage.1
          rw [mainRun_eq_of_none hb hpub htp]
          simp [List.count_append, List.count_cons, h1, hp1, h0t, h0b, h0c,
            h0tp, h0s]
        · simp [mainRun, hb, hpub, htp] at hnone
      · simp [mainRun, hb, hpub] at hnone
    · simp [mainRun, hb] at hnone

/-- Witness for C8: the concrete one-package live run writes `foo`'s manifest
once and — the run completing cleanly — reads it twice. -/
theorem c8_witness :
    (mainRun cfgLive envOk "2.0.0" mRoot [("foo", mFoo)]).1.count
        (Event.fileWrite (PkgPath.pkg "foo")) = 1 ∧
      ((mainRun cfgLive envOk "2.0.0" mRoot [("foo", mFoo)]).2 = none →
        (mainRun cfgLive envOk "2.0.0" mRoot [("foo", mFoo)]).1.count
            (Event.fileRead (PkgPath.pkg "foo")) = 2) :=
  c8_manifest_file_access cfgLive envOk "2.0.0" mRoot [("foo", mFoo)] "foo"
    (by decide) (by decide)

end Release
